import Mathlib

/-!
Verification development for the DNSKEY RDATA codec
(src/rr/rdata/dnskey.rs of the trust-dns repository).

The codec is embedded shallowly:
* bytes are natural numbers (each intended below 256), a wire buffer is a
  `List Nat`;
* the cursor-based binary reader (the external `BinDecoder`) is modelled as
  functions from the remaining byte list to `Except DecodeError (value ×
  remaining bytes)`;
* the cursor-based binary writer (the external `BinEncoder`) appends bytes,
  so the encode operation is modelled as a function producing the list of
  bytes it appends;
* machine integers are `Nat` with explicit `% 2 ^ 16` where the source's
  `u16` arithmetic can wrap.
-/

namespace TrustDns

/-- Modelled from the spec: the decode-error taxonomy of §7 (the error
enumeration lives in `error.rs`, which is not part of the sources here; the
codec source only constructs `DnsKeyProtocolNot3`).  `eof` is the truncated
input error raised by the underlying reader, `unknownAlgorithm` the
algorithm-codec failure, `underflow` the distinct length-field
inconsistency error demanded by the spec. -/
inductive DecodeError where
  | eof : DecodeError
  | dnsKeyProtocolNot3 (value : Nat) : DecodeError
  | unknownAlgorithm (value : Nat) : DecodeError
  | underflow : DecodeError
deriving DecidableEq, Repr

/-- Modelled from the spec: the encode-error type (`EncodeResult` in the
source; its error cases live outside these sources and are never produced
by this codec). -/
inductive EncodeError where
  | other : EncodeError
deriving DecidableEq, Repr

/-- Modelled from the spec: the external algorithm-code enumeration
(`rr::dnssec::Algorithm`), an opaque enumeration identifying the public-key
cryptosystem, with a 1-octet wire codec.  Variants and octet values follow
RFC 4034 Appendix A.1 and RFC 5702 (RSASHA256 = 8). -/
inductive Algorithm where
  | RSASHA1 : Algorithm
  | RSASHA1NSEC3SHA1 : Algorithm
  | RSASHA256 : Algorithm
  | RSASHA512 : Algorithm
deriving DecidableEq, Repr

/-- Modelled from the spec: the defined octet of each algorithm code. -/
def Algorithm.to_u8 : Algorithm → Nat
  | .RSASHA1 => 5
  | .RSASHA1NSEC3SHA1 => 7
  | .RSASHA256 => 8
  | .RSASHA512 => 10

/-- Modelled from the spec: decoding one octet to an algorithm code, failing
on an unassigned value. -/
def Algorithm.from_u8 : Nat → Option Algorithm
  | 5 => some .RSASHA1
  | 7 => some .RSASHA1NSEC3SHA1
  | 8 => some .RSASHA256
  | 10 => some .RSASHA512
  | _ => none

/-- The tagged union of record data types (`rr::record_data::RData`).  Only
the DNSKEY variant is defined in the source under study; `OTHER` stands for
any of the remaining variants of the union. -/
inductive RData where
  | DNSKEY (zone_key : Bool) (secure_entry_point : Bool) (revoke : Bool)
      (algorithm : Algorithm) (public_key : List Nat) : RData
  | OTHER (payload : List Nat) : RData
deriving DecidableEq, Repr

/-- Whether an `RData` value is the DNSKEY variant. -/
def RData.isDNSKEY : RData → Bool
  | .DNSKEY _ _ _ _ _ => true
  | .OTHER _ => false

/-- Modelled from the spec: `BinDecoder::read_u8` — read one octet, fail
with a truncation error if no byte remains. -/
def read_u8 (bs : List Nat) : Except DecodeError (Nat × List Nat) :=
  match bs with
  | [] => .error .eof
  | b :: rest => .ok (b, rest)

/-- Modelled from the spec: `BinDecoder::read_u16` — read one unsigned
16-bit big-endian integer, fail with a truncation error if fewer than two
bytes remain. -/
def read_u16 (bs : List Nat) : Except DecodeError (Nat × List Nat) :=
  match bs with
  | b0 :: b1 :: rest => .ok (b0 * 256 + b1, rest)
  | _ => .error .eof

/-- Modelled from the spec: `BinDecoder::read_vec` — read exactly `n`
octets, fail with a truncation error if fewer remain. -/
def read_vec (n : Nat) (bs : List Nat) : Except DecodeError (List Nat × List Nat) :=
  if n ≤ bs.length then .ok (bs.take n, bs.drop n) else .error .eof

/-- Modelled from the spec: `Algorithm::read` — one octet on the wire,
failing on an unassigned algorithm value. -/
def Algorithm.read (bs : List Nat) : Except DecodeError (Algorithm × List Nat) :=
  match read_u8 bs with
  | .error e => .error e
  | .ok (b, rest) =>
    match Algorithm.from_u8 b with
    | some a => .ok (a, rest)
    | none => .error (.unknownAlgorithm b)

/-- The key length computed by `read`: the source computes
`(rdata_length - 4) as usize` on a `u16`.  That subtraction is unchecked, so
it wraps modulo `2 ^ 16` (release-build semantics; in debug builds it
panics when `rdata_length < 4`), modelled here as
`(rdata_length + 2 ^ 16 - 4) % 2 ^ 16`. -/
def key_len (rdata_length : Nat) : Nat := (rdata_length + 2 ^ 16 - 4) % 2 ^ 16

/-- Function read from src/rr/rdata/dnskey.rs: decode one DNSKEY RDATA. -/
def read (bs : List Nat) (rdata_length : Nat) : Except DecodeError (RData × List Nat) :=
  match read_u16 bs with
  | .error e => .error e
  | .ok (flags, bs1) =>
    let zone_key : Bool := flags &&& 0x0100 == 0x0100
    let secure_entry_point : Bool := flags &&& 0x0001 == 0x0001
    let revoke : Bool := flags &&& 0x0080 == 0x0080
    match read_u8 bs1 with
    | .error e => .error e
    | .ok (protocol, bs2) =>
      if protocol ≠ 3 then .error (.dnsKeyProtocolNot3 protocol)
      else
        match Algorithm.read bs2 with
        | .error e => .error e
        | .ok (algorithm, bs3) =>
          match read_vec (key_len rdata_length) bs3 with
          | .error e => .error e
          | .ok (public_key, bs4) =>
            .ok (.DNSKEY zone_key secure_entry_point revoke algorithm public_key, bs4)

/-- Outcome of the encode operation: the bytes appended on success, a
recoverable encode error, or a panic (the fatal wrong-variant branch). -/
inductive EmitResult where
  | ok (out : List Nat) : EmitResult
  | err (e : EncodeError) : EmitResult
  | panicked : EmitResult
deriving DecidableEq, Repr

/-- Function emit from src/rr/rdata/dnskey.rs.  Composes the flags word by OR-ing
the bit constants, writes it big-endian, writes the literal protocol octet
3, the algorithm octet, then the key bytes verbatim; panics on any
non-DNSKEY variant. -/
def emit (rdata : RData) : EmitResult :=
  match rdata with
  | .DNSKEY zone_key secure_entry_point revoke algorithm public_key =>
    let flags0 : Nat := 0
    let flags1 : Nat := if zone_key then flags0 ||| 0x0100 else flags0
    let flags2 : Nat := if secure_entry_point then flags1 ||| 0x0001 else flags1
    let flags : Nat := if revoke then flags2 ||| 0x0080 else flags2
    .ok ((flags / 256 :: flags % 256 :: []) ++ (3 :: []) ++ (algorithm.to_u8 :: []) ++ public_key)
  | .OTHER _ => .panicked

/-!  Helper lemmas shared by the claim theorems. -/

/-- Unfolding `read` on a well-formed prefix (flags bytes, protocol 3, a
recognised algorithm octet): the result is the key read mapped into a
DNSKEY value. -/
theorem read_eq_vec (b0 b1 a : Nat) (alg : Algorithm) (h : Algorithm.from_u8 a = some alg)
    (t3 : List Nat) (rdl : Nat) :
    TrustDns.read (b0 :: b1 :: 3 :: a :: t3) rdl =
      (read_vec (key_len rdl) t3).map (fun p =>
        (.DNSKEY ((b0 * 256 + b1) &&& 0x0100 == 0x0100)
          ((b0 * 256 + b1) &&& 0x0001 == 0x0001)
          ((b0 * 256 + b1) &&& 0x0080 == 0x0080) alg p.1, p.2)) := by
  cases hv : read_vec (key_len rdl) t3 with
  | error e =>
    simp only [TrustDns.read, read_u16, read_u8, Algorithm.read, h, ne_eq, not_true_eq_false,
      if_false, ite_false, hv, Except.map]
  | ok pkb =>
    simp only [TrustDns.read, read_u16, read_u8, Algorithm.read, h, ne_eq, not_true_eq_false,
      if_false, ite_false, hv, Except.map]

/-- Success case: read succeeds on a well-formed prefix when enough key bytes remain. -/
theorem read_ok_general (b0 b1 a : Nat) (alg : Algorithm) (h : Algorithm.from_u8 a = some alg)
    (rest : List Nat) (rdl : Nat) (hk : key_len rdl ≤ rest.length) :
    TrustDns.read (b0 :: b1 :: 3 :: a :: rest) rdl =
      .ok (.DNSKEY ((b0 * 256 + b1) &&& 0x0100 == 0x0100)
            ((b0 * 256 + b1) &&& 0x0001 == 0x0001)
            ((b0 * 256 + b1) &&& 0x0080 == 0x0080) alg
            (rest.take (key_len rdl)), rest.drop (key_len rdl)) := by
  rw [read_eq_vec b0 b1 a alg h rest rdl]
  simp only [read_vec, if_pos hk, Except.map]

/-- The source's mask-and-compare flag test agrees with `Nat.testBit`. -/
theorem and_pow_beq_testBit (x i : Nat) : (x &&& 2 ^ i == 2 ^ i) = x.testBit i := by
  rw [Nat.and_two_pow]
  cases h : x.testBit i
  · simp only [Bool.toNat_false, Nat.zero_mul, h]
    simp only [beq_eq_false_iff_ne, ne_eq]
    exact fun hh => absurd hh.symm (pow_ne_zero i (by norm_num))
  · simp [h]

theorem and_256_beq (x : Nat) : (x &&& 256 == 256) = x.testBit 8 := by
  have h := and_pow_beq_testBit x 8
  norm_num at h
  exact h

theorem and_1_beq (x : Nat) : (x &&& 1 == 1) = x.testBit 0 := by
  have h := and_pow_beq_testBit x 0
  simpa using h

theorem and_128_beq (x : Nat) : (x &&& 128 == 128) = x.testBit 7 := by
  have h := and_pow_beq_testBit x 7
  norm_num at h
  exact h

/-- The algorithm codec is a partial bijection: a successfully decoded
octet re-encodes to itself. -/
theorem to_u8_of_from_u8 (a : Nat) (alg : Algorithm) (h : Algorithm.from_u8 a = some alg) :
    alg.to_u8 = a := by
  unfold Algorithm.from_u8 at h
  split at h
  · injection h with h2; subst h2; rfl
  · injection h with h2; subst h2; rfl
  · injection h with h2; subst h2; rfl
  · injection h with h2; subst h2; rfl
  · exact Option.noConfusion h

theorem from_u8_to_u8 (alg : Algorithm) : Algorithm.from_u8 alg.to_u8 = some alg := by
  cases alg <;> rfl

/-- Inversion: every successful decode is fully determined by the bytes
read — two flag bytes, the literal protocol octet 3, a recognised
algorithm octet, and exactly `key_len rdata_length` key bytes. -/
theorem read_ok_elim (bs : List Nat) (rdl : Nat) (r : RData) (rest : List Nat)
    (h : TrustDns.read bs rdl = .ok (r, rest)) :
    ∃ b0 b1 a alg key, bs = b0 :: b1 :: 3 :: a :: (key ++ rest) ∧
      Algorithm.from_u8 a = some alg ∧
      key.length = key_len rdl ∧
      r = .DNSKEY ((b0 * 256 + b1) &&& 0x0100 == 0x0100)
            ((b0 * 256 + b1) &&& 0x0001 == 0x0001)
            ((b0 * 256 + b1) &&& 0x0080 == 0x0080) alg key := by
  match bs with
  | [] => simp [TrustDns.read, read_u16] at h
  | [b0] => simp [TrustDns.read, read_u16] at h
  | b0 :: b1 :: tail =>
    match tail with
    | [] => simp [TrustDns.read, read_u16, read_u8] at h
    | p :: t2 =>
      by_cases hp : p = 3
      · subst hp
        match t2 with
        | [] => simp [TrustDns.read, read_u16, read_u8, Algorithm.read] at h
        | a :: t3 =>
          cases hfa : Algorithm.from_u8 a with
          | none =>
            simp [TrustDns.read, read_u16, read_u8, Algorithm.read, hfa] at h
          | some alg =>
            by_cases hn : key_len rdl ≤ t3.length
            · rw [read_ok_general b0 b1 a alg hfa t3 rdl hn] at h
              obtain ⟨hr, hrest⟩ := Prod.mk.injEq .. ▸ (Except.ok.injEq .. ▸ h)
              refine ⟨b0, b1, a, alg, t3.take (key_len rdl), ?_, hfa, ?_, hr.symm⟩
              · rw [← hrest, List.take_append_drop]
              · rw [List.length_take, Nat.min_eq_left hn]
            · rw [read_eq_vec b0 b1 a alg hfa t3 rdl] at h
              have hv : read_vec (key_len rdl) t3 = .error .eof := by
                unfold read_vec
                rw [if_neg hn]
              rw [hv] at h
              exact Except.noConfusion h
      · simp [TrustDns.read, read_u16, read_u8, hp] at h


def flags_word (zone_key secure_entry_point revoke : Bool) : Nat :=
  (if zone_key then 0x0100 else 0) + (if secure_entry_point then 0x0001 else 0) +
    (if revoke then 0x0080 else 0)

theorem emit_DNSKEY (zk sep rv : Bool) (alg : Algorithm) (pk : List Nat) :
    emit (.DNSKEY zk sep rv alg pk) =
      .ok (flags_word zk sep rv / 256 :: flags_word zk sep rv % 256 :: 3 :: alg.to_u8 :: pk) := by
  cases zk <;> cases sep <;> cases rv <;> rfl

theorem flags_recover (zk sep rv : Bool) :
    (flags_word zk sep rv &&& 0x0100 == 0x0100) = zk ∧
    (flags_word zk sep rv &&& 0x0001 == 0x0001) = sep ∧
    (flags_word zk sep rv &&& 0x0080 == 0x0080) = rv := by
  cases zk <;> cases sep <;> cases rv <;> exact ⟨rfl, rfl, rfl⟩

theorem flags_word_bytes (zk sep rv : Bool) :
    flags_word zk sep rv / 256 * 256 + flags_word zk sep rv % 256 = flags_word zk sep rv := by
  have h := Nat.div_add_mod (flags_word zk sep rv) 256
  omega

theorem flags_word_hi (zk sep rv : Bool) :
    flags_word zk sep rv / 256 = if zk then 1 else 0 := by
  cases zk <;> cases sep <;> cases rv <;> rfl

theorem flags_word_lo (zk sep rv : Bool) :
    flags_word zk sep rv % 256 = (if rv then 128 else 0) + (if sep then 1 else 0) := by
  cases zk <;> cases sep <;> cases rv <;> rfl

theorem read_protocol_err (b0 b1 p : Nat) (hp : p ≠ 3) (rest : List Nat) (rdl : Nat) :
    TrustDns.read (b0 :: b1 :: p :: rest) rdl = .error (.dnsKeyProtocolNot3 p) := by
  simp [TrustDns.read, read_u16, read_u8, hp]

theorem read_alg_err (b0 b1 a : Nat) (ha : Algorithm.from_u8 a = none) (t3 : List Nat)
    (rdl : Nat) :
    TrustDns.read (b0 :: b1 :: 3 :: a :: t3) rdl = .error (.unknownAlgorithm a) := by
  simp [TrustDns.read, read_u16, read_u8, Algorithm.read, ha]

theorem read_vec_error (n : Nat) (bs : List Nat) (e : DecodeError)
    (h : read_vec n bs = .error e) : e = .eof := by
  unfold read_vec at h
  by_cases hn : n ≤ bs.length
  · rw [if_pos hn] at h
    exact Except.noConfusion h
  · rw [if_neg hn] at h
    injection h with h2
    exact h2.symm

theorem read_isOk_flags_irrel (b0 b1 c0 c1 : Nat) (tail : List Nat) (rdl : Nat) :
    (TrustDns.read (b0 :: b1 :: tail) rdl).isOk = (TrustDns.read (c0 :: c1 :: tail) rdl).isOk := by
  cases tail with
  | nil => rfl
  | cons p t2 =>
    by_cases hp : p = 3
    · subst hp
      cases t2 with
      | nil => rfl
      | cons a t3 =>
        cases hfa : Algorithm.from_u8 a with
        | none => rw [read_alg_err b0 b1 a hfa t3 rdl, read_alg_err c0 c1 a hfa t3 rdl]
        | some alg =>
          rw [read_eq_vec b0 b1 a alg hfa t3 rdl, read_eq_vec c0 c1 a alg hfa t3 rdl]
          cases hv : read_vec (key_len rdl) t3 <;>
            simp [hv, Except.map, Except.isOk, Except.toBool]
    · rw [read_protocol_err b0 b1 p hp t2 rdl, read_protocol_err c0 c1 p hp t2 rdl]

theorem read_err_of_vec_err (b0 b1 a : Nat) (alg : Algorithm)
    (ha : Algorithm.from_u8 a = some alg) (t3 : List Nat) (rdl : Nat) (e : DecodeError)
    (hv : read_vec (key_len rdl) t3 = .error e) :
    TrustDns.read (b0 :: b1 :: 3 :: a :: t3) rdl = .error e := by
  rw [read_eq_vec b0 b1 a alg ha t3 rdl, hv]
  rfl

theorem read_error_shape (b0 b1 : Nat) (rest : List Nat) (rdl : Nat) (e : DecodeError)
    (h : TrustDns.read (b0 :: b1 :: 3 :: rest) rdl = .error e) :
    e = .eof ∨ ∃ w, e = .unknownAlgorithm w := by
  cases rest with
  | nil =>
    left
    have hred : TrustDns.read (b0 :: b1 :: 3 :: ([] : List Nat)) rdl = .error .eof := by
      simp [TrustDns.read, read_u16, read_u8, Algorithm.read]
    rw [hred] at h
    injection h with h2
    exact h2.symm
  | cons a t3 =>
    cases hfa : Algorithm.from_u8 a with
    | none =>
      right
      refine ⟨a, ?_⟩
      rw [read_alg_err b0 b1 a hfa t3 rdl] at h
      injection h with h2
      exact h2.symm
    | some alg =>
      left
      cases hv : read_vec (key_len rdl) t3 with
      | error e2 =>
        have he2 := read_vec_error _ _ _ hv
        subst he2
        have hx := read_err_of_vec_err b0 b1 a alg hfa t3 rdl _ hv
        have h3 : (Except.error DecodeError.eof : Except DecodeError (RData × List Nat)) = .error e := hx ▸ h
        simp only [Except.error.injEq] at h3
        exact h3.symm
      | ok pkb =>
        rw [read_eq_vec b0 b1 a alg hfa t3 rdl, hv] at h
        exact Except.noConfusion h


/-!  Claim theorems. -/

/-- C1: the claim says a decode with rdata_length below 4 must fail with a
length/underflow error, without wrapping the subtraction or attempting a
huge key read.  The code instead wraps the u16 subtraction 2 - 4 to 65534
and attempts a 65534-byte key read: on a short cursor this surfaces as the
reader truncation error (not an underflow error), and on a cursor holding
65534 key bytes the decode even succeeds with a 65534-byte key. -/
theorem dnskey_read_underflow_behaviour :
    key_len 2 = 65534 ∧
    TrustDns.read [0, 0, 3, 8] 2 = .error DecodeError.eof ∧
    TrustDns.read (0 :: 0 :: 3 :: 8 :: List.replicate 65534 0) 2 =
      .ok (.DNSKEY false false false .RSASHA256 (List.replicate 65534 0), []) := by
  have hk : key_len 2 = 65534 := by norm_num [key_len]
  have hlen : (List.replicate 65534 (0 : Nat)).length = 65534 :=
    List.length_replicate 65534 0
  refine ⟨hk, rfl, ?_⟩
  have h := read_ok_general 0 0 8 .RSASHA256 rfl (List.replicate 65534 0) 2
    (by rw [hk, hlen])
  rw [h, hk]
  have ht : (List.replicate 65534 (0 : Nat)).take 65534 = List.replicate 65534 0 := by
    apply List.take_of_length_le
    rw [hlen]
  have hd : (List.replicate 65534 (0 : Nat)).drop 65534 = [] := by
    apply List.drop_eq_nil_of_le
    rw [hlen]
  rw [ht, hd]
  rfl

/-- C3: a third RDATA byte other than 3 fails with the DnsKeyProtocolNot3
error carrying the observed value; with a third byte equal to 3 no protocol
error is ever raised. -/
theorem dnskey_protocol_enforcement (b0 b1 v : Nat) (rest : List Nat) (rdl : Nat)
    (hv : v < 256) :
    (v ≠ 3 → TrustDns.read (b0 :: b1 :: v :: rest) rdl =
      .error (.dnsKeyProtocolNot3 v)) ∧
    (v = 3 → ∀ e w, TrustDns.read (b0 :: b1 :: v :: rest) rdl = .error e →
      e ≠ DecodeError.dnsKeyProtocolNot3 w) := by
  constructor
  · intro hne
    exact read_protocol_err b0 b1 v hne rest rdl
  · intro h3 e w hread
    subst h3
    rcases read_error_shape b0 b1 rest rdl e hread with he | ⟨u, he⟩ <;> subst he <;> simp

theorem dnskey_protocol_enforcement_w :
    (5 : Nat) < 256 ∧ (5 : Nat) ≠ 3 ∧
    TrustDns.read [0, 0, 5, 8] 7 = .error (.dnsKeyProtocolNot3 5) :=
  ⟨by decide, by decide,
    (dnskey_protocol_enforcement 0 0 5 [8] 7 (by decide)).1 (by decide)⟩

/-- C4: the decoded booleans are exactly the three defined bits of the
16-bit flags field (zone key = bit value 0x0100, i.e. testBit 8; secure
entry point = 0x0001, i.e. testBit 0; revoke = 0x0080, i.e. testBit 7),
and whether decoding succeeds does not depend on the flag bytes at all —
reserved bits are discarded. -/
theorem dnskey_flags_decoding (b0 b1 c0 c1 : Nat) (tail : List Nat) (rdl : Nat) :
    (∀ r rest, TrustDns.read (b0 :: b1 :: tail) rdl = .ok (r, rest) →
      ∃ alg key, r = .DNSKEY ((b0 * 256 + b1).testBit 8) ((b0 * 256 + b1).testBit 0)
        ((b0 * 256 + b1).testBit 7) alg key) ∧
    (TrustDns.read (b0 :: b1 :: tail) rdl).isOk =
      (TrustDns.read (c0 :: c1 :: tail) rdl).isOk := by
  constructor
  · intro r rest h
    obtain ⟨b0p, b1p, a, alg, key, hbs, hfa, hkl, hr⟩ := read_ok_elim _ _ _ _ h
    injection hbs with h0 hbs
    injection hbs with h1 hbs
    subst h0
    subst h1
    refine ⟨alg, key, ?_⟩
    rw [hr, and_256_beq, and_1_beq, and_128_beq]
  · exact read_isOk_flags_irrel b0 b1 c0 c1 tail rdl

theorem dnskey_flags_decoding_w :
    (TrustDns.read [0x7E, 0x7E, 3, 8, 9] 5).isOk =
      (TrustDns.read [0, 0, 3, 8, 9] 5).isOk ∧
    (∀ r rest, TrustDns.read [0x7E, 0x7E, 3, 8, 9] 5 = .ok (r, rest) →
      ∃ alg key, r = .DNSKEY ((0x7E * 256 + 0x7E).testBit 8) ((0x7E * 256 + 0x7E).testBit 0)
        ((0x7E * 256 + 0x7E).testBit 7) alg key) :=
  ⟨(dnskey_flags_decoding 0x7E 0x7E 0 0 [3, 8, 9] 5).2,
   (dnskey_flags_decoding 0x7E 0x7E 0 0 [3, 8, 9] 5).1⟩

/-- C5: emit writes the big-endian 16-bit flags word (the OR of 0x0100 for
zone key, 0x0001 for secure entry point, 0x0080 for revoke, reserved bits
all zero), then the literal protocol octet 3, then the algorithm octet,
then the public key verbatim; the concrete record of the spec produces
exactly the listed bytes. -/
theorem dnskey_emit_format (zk sep rv : Bool) (alg : Algorithm) (pk : List Nat) :
    ∃ F : Nat,
      F = ((if zk then 0x0100 else 0) ||| (if sep then 0x0001 else 0) |||
        (if rv then 0x0080 else 0)) ∧
      F < 2 ^ 16 ∧ F &&& 0xFE7E = 0 ∧
      emit (.DNSKEY zk sep rv alg pk) = .ok (F / 256 :: F % 256 :: 3 :: alg.to_u8 :: pk) ∧
      emit (.DNSKEY true true false .RSASHA256 [0, 1, 2, 3, 4, 5, 6, 7]) =
        .ok [1, 1, 3, 8, 0, 1, 2, 3, 4, 5, 6, 7] := by
  refine ⟨flags_word zk sep rv, ?_, ?_, ?_, emit_DNSKEY zk sep rv alg pk, rfl⟩
  · cases zk <;> cases sep <;> cases rv <;> rfl
  · cases zk <;> cases sep <;> cases rv <;> decide
  · cases zk <;> cases sep <;> cases rv <;> decide

/-- C8: emit on any non-DNSKEY variant takes the fatal panic branch, not a
recoverable error; on DNSKEY-variant arguments the panic branch is
unreachable; and no argument at all yields a recoverable encode error. -/
theorem dnskey_emit_variant_contract :
    (∀ r : RData, r.isDNSKEY = false → emit r = .panicked) ∧
    (∀ zk sep rv alg pk, emit (.DNSKEY zk sep rv alg pk) ≠ .panicked) ∧
    (∀ r e, emit r ≠ .err e) := by
  refine ⟨?_, ?_, ?_⟩
  · intro r h
    cases r with
    | DNSKEY zk sep rv alg pk => simp [RData.isDNSKEY] at h
    | OTHER p => rfl
  · intro zk sep rv alg pk h
    rw [emit_DNSKEY] at h
    exact EmitResult.noConfusion h
  · intro r e h
    cases r with
    | DNSKEY zk sep rv alg pk =>
      rw [emit_DNSKEY] at h
      exact EmitResult.noConfusion h
    | OTHER p => exact EmitResult.noConfusion h

theorem dnskey_emit_variant_contract_w :
    emit (RData.OTHER [1, 2]) = .panicked ∧
    emit (.DNSKEY true false false .RSASHA1 [9]) ≠ .panicked :=
  ⟨dnskey_emit_variant_contract.1 (RData.OTHER [1, 2]) rfl,
   dnskey_emit_variant_contract.2.1 true false false .RSASHA1 [9]⟩

/-- C2: encoding any DnsKeyRecord and decoding the produced bytes with
rdata_length equal to their count returns exactly the original record, for
every combination of the three flags, every algorithm and every key (whose
wire length must fit the u16 rdata_length). -/
theorem dnskey_roundtrip (zk sep rv : Bool) (alg : Algorithm) (pk : List Nat)
    (hlen : 4 + pk.length < 2 ^ 16) :
    ∃ out : List Nat, emit (.DNSKEY zk sep rv alg pk) = .ok out ∧
      TrustDns.read out out.length = .ok (.DNSKEY zk sep rv alg pk, []) := by
  refine ⟨_, emit_DNSKEY zk sep rv alg pk, ?_⟩
  have hout : (flags_word zk sep rv / 256 :: flags_word zk sep rv % 256 ::
      3 :: alg.to_u8 :: pk).length = 4 + pk.length := by
    simp
    omega
  rw [hout]
  have hk : key_len (4 + pk.length) = pk.length := by
    simp only [key_len]
    omega
  have h := read_ok_general (flags_word zk sep rv / 256) (flags_word zk sep rv % 256)
    alg.to_u8 alg (from_u8_to_u8 alg) pk (4 + pk.length) (by rw [hk])
  rw [h, hk, List.take_length, List.drop_length, flags_word_bytes]
  obtain ⟨h1, h2, h3⟩ := flags_recover zk sep rv
  rw [h1, h2, h3]

theorem dnskey_roundtrip_w :
    4 + ([0, 1, 2, 3, 4, 5, 6, 7] : List Nat).length < 2 ^ 16 ∧
    ∃ out : List Nat,
      emit (.DNSKEY true true false .RSASHA256 [0, 1, 2, 3, 4, 5, 6, 7]) = .ok out ∧
      TrustDns.read out out.length =
        .ok (.DNSKEY true true false .RSASHA256 [0, 1, 2, 3, 4, 5, 6, 7], []) :=
  ⟨by norm_num,
    dnskey_roundtrip true true false .RSASHA256 [0, 1, 2, 3, 4, 5, 6, 7] (by norm_num)⟩

/-- C6: with rdata_length = 4 + k and at least k bytes after the fixed
header, decode succeeds and takes exactly the first k trailing bytes as the
public key; k = 0 gives an empty key, not an error. -/
theorem dnskey_key_length_derivation (k b0 b1 a : Nat) (alg : Algorithm) (rest : List Nat)
    (ha : Algorithm.from_u8 a = some alg) (hr : 4 + k < 2 ^ 16) (hk : k ≤ rest.length) :
    TrustDns.read (b0 :: b1 :: 3 :: a :: rest) (4 + k) =
      .ok (.DNSKEY ((b0 * 256 + b1).testBit 8) ((b0 * 256 + b1).testBit 0)
        ((b0 * 256 + b1).testBit 7) alg (rest.take k), rest.drop k) ∧
    (rest.take k).length = k := by
  have hkl : key_len (4 + k) = k := by
    simp only [key_len]
    omega
  constructor
  · have h := read_ok_general b0 b1 a alg ha rest (4 + k) (by rw [hkl]; exact hk)
    rw [h, hkl, and_256_beq, and_1_beq, and_128_beq]
  · rw [List.length_take]
    exact Nat.min_eq_left hk

theorem dnskey_key_length_derivation_w :
    Algorithm.from_u8 8 = some .RSASHA256 ∧ 4 + 0 < 2 ^ 16 ∧
    (0 : Nat) ≤ ([] : List Nat).length ∧
    (TrustDns.read [0, 0, 3, 8] (4 + 0) =
      .ok (.DNSKEY ((0 * 256 + 0).testBit 8) ((0 * 256 + 0).testBit 0)
        ((0 * 256 + 0).testBit 7) .RSASHA256 (([] : List Nat).take 0),
        ([] : List Nat).drop 0) ∧
      (([] : List Nat).take 0).length = 0) :=
  ⟨rfl, by norm_num, by decide,
    dnskey_key_length_derivation 0 0 0 8 .RSASHA256 [] rfl (by norm_num) (by decide)⟩

/-- C7: decode never returns a partial record — every successful decode is
fully determined by successfully read bytes: two flag bytes giving the
three booleans, the validated protocol octet 3, a successfully decoded
algorithm octet, and exactly key_len rdata_length key bytes; everything
else is an error for the whole record. -/
theorem dnskey_no_partial_results (bs : List Nat) (rdl : Nat) (r : RData) (rest : List Nat)
    (h : TrustDns.read bs rdl = .ok (r, rest)) :
    ∃ b0 b1 a alg key, bs = b0 :: b1 :: 3 :: a :: (key ++ rest) ∧
      Algorithm.from_u8 a = some alg ∧
      key.length = key_len rdl ∧
      r = .DNSKEY ((b0 * 256 + b1).testBit 8) ((b0 * 256 + b1).testBit 0)
        ((b0 * 256 + b1).testBit 7) alg key := by
  obtain ⟨b0, b1, a, alg, key, hbs, hfa, hkl, hr⟩ := read_ok_elim bs rdl r rest h
  exact ⟨b0, b1, a, alg, key, hbs, hfa, hkl,
    by rw [hr, and_256_beq, and_1_beq, and_128_beq]⟩

theorem dnskey_no_partial_results_w :
    TrustDns.read [1, 1, 3, 8, 9, 9] 6 =
      .ok (.DNSKEY true true false .RSASHA256 [9, 9], []) ∧
    ∃ b0 b1 a alg key, ([1, 1, 3, 8, 9, 9] : List Nat) = b0 :: b1 :: 3 :: a :: (key ++ []) ∧
      Algorithm.from_u8 a = some alg ∧ key.length = key_len 6 ∧
      (RData.DNSKEY true true false .RSASHA256 [9, 9] : RData) =
        .DNSKEY ((b0 * 256 + b1).testBit 8) ((b0 * 256 + b1).testBit 0)
          ((b0 * 256 + b1).testBit 7) alg key :=
  ⟨rfl, dnskey_no_partial_results [1, 1, 3, 8, 9, 9] 6 _ [] rfl⟩

/-- C9: a byte sequence with reserved flag bits zero (first two bytes
determined by the three defined flags only), protocol byte 3 and a
recognised algorithm octet decodes, and re-encoding the decoded record
reproduces exactly the original bytes. -/
theorem dnskey_decode_then_encode (zk sep rv : Bool) (a : Nat) (alg : Algorithm)
    (key : List Nat) (ha : Algorithm.from_u8 a = some alg)
    (hlen : 4 + key.length < 2 ^ 16) :
    ∃ r : RData,
      TrustDns.read ((if zk then 1 else 0) ::
          ((if rv then 128 else 0) + (if sep then 1 else 0)) :: 3 :: a :: key)
        (4 + key.length) = .ok (r, []) ∧
      emit r = .ok ((if zk then 1 else 0) ::
        ((if rv then 128 else 0) + (if sep then 1 else 0)) :: 3 :: a :: key) := by
  refine ⟨.DNSKEY zk sep rv alg key, ?_, ?_⟩
  · have hkl : key_len (4 + key.length) = key.length := by
      simp only [key_len]
      omega
    have h := read_ok_general (if zk then 1 else 0)
      ((if rv then 128 else 0) + (if sep then 1 else 0)) a alg ha key (4 + key.length)
      (by rw [hkl])
    rw [h, hkl, List.take_length, List.drop_length]
    have hfw : (if zk then 1 else 0) * 256 +
        ((if rv then 128 else 0) + (if sep then 1 else 0)) = flags_word zk sep rv := by
      cases zk <;> cases sep <;> cases rv <;> rfl
    rw [hfw]
    obtain ⟨h1, h2, h3⟩ := flags_recover zk sep rv
    rw [h1, h2, h3]
  · rw [emit_DNSKEY, to_u8_of_from_u8 a alg ha, flags_word_hi, flags_word_lo]

theorem dnskey_decode_then_encode_w :
    Algorithm.from_u8 8 = some .RSASHA256 ∧ 4 + ([6] : List Nat).length < 2 ^ 16 ∧
    ∃ r : RData,
      TrustDns.read [1, 129, 3, 8, 6] (4 + ([6] : List Nat).length) = .ok (r, []) ∧
      emit r = .ok [1, 129, 3, 8, 6] :=
  ⟨rfl, by norm_num,
    dnskey_decode_then_encode true true true 8 .RSASHA256 [6] rfl (by norm_num)⟩

/-- C10: whenever decode succeeds with 4 ≤ rdata_length (a u16), it has
consumed exactly rdata_length bytes from the cursor and read nothing
beyond them. -/
theorem dnskey_cursor_consumption (bs : List Nat) (rdl : Nat) (r : RData) (rest : List Nat)
    (h4 : 4 ≤ rdl) (h16 : rdl < 2 ^ 16) (h : TrustDns.read bs rdl = .ok (r, rest)) :
    bs.length = rdl + rest.length ∧
    ∃ consumed, bs = consumed ++ rest ∧ consumed.length = rdl := by
  obtain ⟨b0, b1, a, alg, key, hbs, hfa, hkl, hr⟩ := read_ok_elim bs rdl r rest h
  have hkl4 : key.length = rdl - 4 := by
    rw [hkl]
    simp only [key_len]
    omega
  constructor
  · rw [hbs]
    simp [List.length_append, hkl4]
    omega
  · refine ⟨b0 :: b1 :: 3 :: a :: key, ?_, ?_⟩
    · rw [hbs]
      rfl
    · simp [hkl4]
      omega

theorem dnskey_cursor_consumption_w :
    (4 : Nat) ≤ 6 ∧ (6 : Nat) < 2 ^ 16 ∧
    TrustDns.read [1, 1, 3, 8, 9, 9, 7] 6 =
      .ok (.DNSKEY true true false .RSASHA256 [9, 9], [7]) ∧
    (([1, 1, 3, 8, 9, 9, 7] : List Nat).length = 6 + ([7] : List Nat).length ∧
      ∃ consumed, ([1, 1, 3, 8, 9, 9, 7] : List Nat) = consumed ++ [7] ∧
        consumed.length = 6) :=
  ⟨by decide, by norm_num, rfl,
    dnskey_cursor_consumption [1, 1, 3, 8, 9, 9, 7] 6 _ [7] (by decide) (by norm_num) rfl⟩

end TrustDns
